import Mathlib

/-!
Verification of the polyline FFI boundary-marshaling layer.

The development shallowly embeds `src/lib.rs`: coordinate components crossing
the boundary are modelled by `F64` (either the NaN sentinel or a rational
value), buffers by lists of coordinate pairs, and the C string produced by the
encode path by a list of characters.  The external polyline algorithm
(`decode_polyline` / `encode_coordinates` from the `polyline` crate) is not
part of this repository's sources; it is modelled from the specification of
the Google polyline format, and the facade functions are additionally stated
parametrically in the external algorithm so that the purely structural claims
do not depend on the model.  Allocation claims use an explicit heap of
address-indexed blocks.
-/

namespace PolylineFFI

/-- A 64-bit floating-point value as it crosses the FFI boundary: either the
not-a-number sentinel used for error signalling, or a finite numeric value,
modelled as a rational. -/
inductive F64 where
  | nan : F64
  | val (q : ℚ) : F64
  deriving DecidableEq

/-- One coordinate pair in `(x, y)` order, as stored in a buffer
(`[f64; 2]` in the source). -/
abbrev Coord := F64 × F64

/-- The `Precision` enum of `src/lib.rs` (lines 29-37); only `Five` and `Six`
are ever produced, the earlier variants exist for the discriminant cast. -/
inductive Precision where
  | Zero
  | One
  | Two
  | Three
  | Four
  | Five
  | Six
  deriving DecidableEq

/-- The value of the Rust cast `Precision::X as u32` (the discriminant). -/
def Precision.toU32 : Precision → ℕ
  | .Zero => 0
  | .One => 1
  | .Two => 2
  | .Three => 3
  | .Four => 4
  | .Five => 5
  | .Six => 6

/-- Translation of `get_precision` (`src/lib.rs` lines 40-46): only 5 or 6
are accepted. -/
def get_precision (input : ℕ) : Option ℕ :=
  match input with
  | 5 => some Precision.Five.toU32
  | 6 => some Precision.Six.toU32
  | _ => none

/-! ## The external polyline algorithm

Modelled from the spec: the repository consumes the `polyline` crate as an
external collaborator providing the two pure functions
`decode(text, precision)` and `encode(coordinate_pairs, precision)`.  The
crate is not in `src/`, so the Google polyline algorithm is modelled here:
values are scaled by `10 ^ precision` and rounded (Rust `f64::round`, i.e.
half away from zero), deltas are zigzag-encoded and emitted as 5-bit chunks
offset by 63, latitude first. -/

/-- Rust `f64::round` on an exact value: round half away from zero. -/
def rustRound (q : ℚ) : ℤ :=
  if q < 0 then -round (-q) else round q

/-- Zigzag step of the polyline encoder: `d << 1`, bitwise-complemented when
negative, which sends `d` to `2 * d` for nonnegative `d` and to
`-2 * d - 1` for negative `d`. -/
def zig (d : ℤ) : ℕ :=
  (if d < 0 then -2 * d - 1 else 2 * d).toNat

/-- Zigzag step of the polyline decoder, inverse of `zig`. -/
def unzig (n : ℕ) : ℤ :=
  if n % 2 = 1 then -((n / 2 : ℕ) : ℤ) - 1 else ((n / 2 : ℕ) : ℤ)

/-- The 5-bit chunks emitted for one zigzagged value, least significant
first; every chunk except the last is tagged with the continuation bit
`0x20`.  The first argument is recursion fuel; `chunksEnc` supplies enough. -/
def chunksEncAux : ℕ → ℕ → List ℕ
  | 0, n => [n % 32]
  | f + 1, n => if n < 32 then [n] else (n % 32 + 32) :: chunksEncAux f (n / 32)

/-- The 5-bit chunk sequence of one zigzagged value. -/
def chunksEnc (n : ℕ) : List ℕ :=
  chunksEncAux n n

/-- A chunk as a polyline character: offset by 63 into printable ASCII. -/
def charOfCode (c : ℕ) : Char :=
  Char.ofNat (c + 63)

/-- The characters encoding one signed scaled delta. -/
def encVal (d : ℤ) : List Char :=
  (chunksEnc (zig d)).map charOfCode

/-- Decoder side: recover the chunk of one polyline character, rejecting
characters outside the polyline alphabet. -/
def charVal (c : Char) : Except String ℕ :=
  if 63 ≤ c.toNat ∧ c.toNat ≤ 126 then .ok (c.toNat - 63)
  else .error "Invalid polyline character"

/-- Decoder side: reassemble one value from its chunk sequence, returning the
unconsumed remainder. -/
def parseVal : List ℕ → Option (ℕ × List ℕ)
  | [] => none
  | c :: l =>
    if c < 32 then some (c, l)
    else (parseVal l).map fun p => (c - 32 + 32 * p.1, p.2)

/-- Decoder side: reassemble all values of a chunk stream.  The first
argument is recursion fuel; the stream length suffices since `parseVal`
consumes at least one chunk. -/
def parseValsAux : ℕ → List ℕ → Option (List ℕ)
  | _, [] => some []
  | 0, _ :: _ => none
  | f + 1, c :: l =>
    (parseVal (c :: l)).bind fun p => (parseValsAux f p.2).map (p.1 :: ·)

/-- Decoder side: turn the zigzagged value stream into coordinates,
accumulating scaled latitude and longitude (latitude value first, output
coordinate in `(x, y) = (lng, lat)` order). -/
def coordsGo (factor : ℚ) : ℤ → ℤ → List ℕ → Except String (List Coord)
  | _, _, [] => .ok []
  | _, _, [_] => .error "Odd number of polyline values"
  | lat, lng, v1 :: v2 :: rest =>
    (coordsGo factor (lat + unzig v1) (lng + unzig v2) rest).map
      ((F64.val (((lng + unzig v2 : ℤ) : ℚ) / factor),
        F64.val (((lat + unzig v1 : ℤ) : ℚ) / factor)) :: ·)

/-- Modelled from the spec: the external `decode(text, precision)` function
of the polyline collaborator. -/
def decode_polyline (s : String) (precision : ℕ) : Except String (List Coord) :=
  match s.data.mapM charVal with
  | .error e => .error e
  | .ok codes =>
    match parseValsAux codes.length codes with
    | none => .error "Unable to parse polyline"
    | some vals => coordsGo ((10 : ℚ) ^ precision) 0 0 vals

/-- Scale one boundary value by the precision factor; Rust casts the rounded
`f64` with `as i64`, which maps NaN to `0`. -/
def scaleF (factor : ℚ) : F64 → ℤ
  | .nan => 0
  | .val q => rustRound (q * factor)

/-- The `<` comparison on boundary values with IEEE semantics: any comparison
against NaN is false. -/
def fLt : F64 → F64 → Bool
  | .val a, .val b => decide (a < b)
  | _, _ => false

/-- Modelled from the spec: the range check of the external encoder, latitude
(the `y` component) checked first; out-of-range coordinates produce the
collaborator's "Latitude error:" / "Longitude error:" messages. -/
def coordCheck (c : Coord) : Except String Unit :=
  if fLt c.2 (F64.val (-90)) || fLt (F64.val 90) c.2 then
    .error "Latitude error: value out of range"
  else if fLt c.1 (F64.val (-180)) || fLt (F64.val 180) c.1 then
    .error "Longitude error: value out of range"
  else .ok ()

/-- Modelled from the spec: the encoding loop of the external encoder,
carrying the previous coordinate (initially the origin), emitting the scaled
latitude delta then the scaled longitude delta for each coordinate. -/
def encodeGo (factor : ℚ) : Coord → List Coord → Except String (List Char)
  | _, [] => .ok []
  | prev, a :: rest =>
    match coordCheck a with
    | .error e => .error e
    | .ok _ =>
      (encodeGo factor a rest).map fun s =>
        encVal (scaleF factor a.2 - scaleF factor prev.2) ++
          (encVal (scaleF factor a.1 - scaleF factor prev.1) ++ s)

/-- Modelled from the spec: the external `encode(coordinate_pairs, precision)`
function of the polyline collaborator. -/
def encode_coordinates (coords : List Coord) (precision : ℕ) : Except String String :=
  (encodeGo ((10 : ℚ) ^ precision) (F64.val 0, F64.val 0) coords).map String.mk

/-! ## The facade layer (`src/lib.rs`) -/

/-- The content view of the C-compatible `InternalArray` struct
(`src/lib.rs` lines 59-62): the `data` field stands for the pointed-to
sequence of coordinate pairs, `len` for the element count. -/
structure InternalArray where
  data : List Coord
  len : ℕ
  deriving DecidableEq

/-- The `From<Vec<[f64; 2]>> for InternalArray` conversion
(`src/lib.rs` lines 107-117): the descriptor's length is the vector's
length and the buffer holds exactly its elements. -/
def internalArrayOfList (v : List Coord) : InternalArray :=
  ⟨v, v.length⟩

/-- The failure sentinel `vec![[f64::NAN, f64::NAN]]` of the decode path. -/
def nanSentinel : List Coord :=
  [(F64.nan, F64.nan)]

/-- Translation of `arr_from_string` (`src/lib.rs` lines 144-156), stated
parametrically in the external decode function it calls. -/
def arr_from_string_with (dec : String → ℕ → Except String (List Coord))
    (incoming : String) (precision : ℕ) : InternalArray :=
  if (get_precision precision).isSome then
    match dec incoming precision with
    | .ok res => internalArrayOfList res
    | .error _ => internalArrayOfList nanSentinel
  else
    internalArrayOfList nanSentinel

/-- `arr_from_string` with the external collaborator plugged in. -/
def arr_from_string : String → ℕ → InternalArray :=
  arr_from_string_with decode_polyline

/-- Translation of `string_from_arr` (`src/lib.rs` lines 159-170), stated
parametrically in the external encode function it calls; the incoming
`ExternalArray` is represented by the list of pairs it points to (the
`Into<LineString>` adoption step copies exactly those pairs). -/
def string_from_arr_with (enc : List Coord → ℕ → Except String String)
    (incoming : List Coord) (precision : ℕ) : String :=
  if (get_precision precision).isSome then
    match enc incoming precision with
    | .ok res => res
    | .error res => res
  else
    "Bad precision parameter supplied"

/-- `string_from_arr` with the external collaborator plugged in. -/
def string_from_arr : List Coord → ℕ → String :=
  string_from_arr_with encode_coordinates

/-- Translation of `decode_polyline_ffi` (`src/lib.rs` lines 189-196),
parametric in the external decode function.  The argument models the outcome
of `CStr::from_ptr(pl).to_str()`: `none` when the caller's bytes are not
valid UTF-8, `some str` otherwise. -/
def decode_polyline_ffi_with (dec : String → ℕ → Except String (List Coord))
    (s : Option String) (precision : ℕ) : InternalArray :=
  match s with
  | some str => arr_from_string_with dec str precision
  | none => internalArrayOfList nanSentinel

/-- `decode_polyline_ffi` with the external collaborator plugged in. -/
def decode_polyline_ffi : Option String → ℕ → InternalArray :=
  decode_polyline_ffi_with decode_polyline

/-! ## The C string transfer step (`encode_coordinates_ffi`) -/

/-- The terminating null character. -/
def nulChar : Char :=
  Char.ofNat 0

/-- Whether a string contains an embedded null byte — the failure condition
of `CString::new`. -/
def hasNul (s : String) : Bool :=
  s.data.any fun c => c.toNat == 0

/-- `CString::new`: null-terminate the text, failing when it contains an
embedded null byte. -/
def cStringNew (s : String) : Option (List Char) :=
  if hasNul s then none else some (s.data ++ [nulChar])

/-- The fixed fallback message substituted when the computed text cannot be
made into a C string. -/
def fallbackMessage : String :=
  "Couldn\x27t decode Polyline"

/-- The marshalling step of `encode_coordinates_ffi` (`src/lib.rs` lines
222-228): hand the text to the caller as a null-terminated buffer,
substituting the fixed fallback message when the text has an embedded null
byte (the fallback itself never does, so its `unwrap` cannot fail). -/
def cStringNewOrFallback (s : String) : List Char :=
  match cStringNew s with
  | some cs => cs
  | none => (cStringNew fallbackMessage).getD []

/-- Translation of `encode_coordinates_ffi` (`src/lib.rs` lines 220-229):
the returned value is the byte content of the transferred C string,
terminator included. -/
def encode_coordinates_ffi (coords : List Coord) (precision : ℕ) : List Char :=
  cStringNewOrFallback (string_from_arr coords precision)

/-- Well-formedness of a transferred C string: non-null (the buffer exists
and is nonempty), null-terminated, and free of embedded null bytes. -/
def cStringWF (cs : List Char) : Prop :=
  cs ≠ [] ∧ cs.getLast? = some nulChar ∧ ∀ c ∈ cs.dropLast, c.toNat ≠ 0

/-! ## The allocation view

The ownership claims are about what the conversions allocate and what the
release functions deallocate, so they are stated against an explicit heap of
address-indexed blocks; a raw pointer is `some` address or `none` for null. -/

/-- A heap of allocated coordinate buffers. -/
abbrev Heap := List (ℕ × List Coord)

/-- Look up the block at an address. -/
def heapLookup (h : Heap) (a : ℕ) : Option (List Coord) :=
  (h.find? fun e => e.1 == a).map Prod.snd

/-- Deallocate the block at an address. -/
def heapRemove (h : Heap) (a : ℕ) : Heap :=
  h.filter fun e => e.1 != a

/-- An address unused by any allocated block. -/
def freshAddr (h : Heap) : ℕ :=
  (h.map Prod.fst).foldr max 0 + 1

/-- The descriptor view of `InternalArray`: the raw `data` pointer (none for
null) and the `len` field. -/
structure RawInternalArray where
  data : Option ℕ
  len : ℕ

/-- The allocation performed by `From<Vec<[f64; 2]>> for InternalArray` and
`From<LineString> for InternalArray` (`src/lib.rs` lines 78-92 and 107-117):
box a fresh copy of the sequence, leak it, and describe it by pointer and
length. -/
def internalArrayFromVec (v : List Coord) (h : Heap) : RawInternalArray × Heap :=
  (⟨some (freshAddr h), v.length⟩, (freshAddr h, v) :: h)

/-- Translation of `impl Drop for InternalArray` (`src/lib.rs` lines 64-75):
return immediately when the pointer is null, otherwise rebuild and drop the
box, deallocating the block. -/
def dropInternalArray (arr : RawInternalArray) (h : Heap) : Heap :=
  match arr.data with
  | none => h
  | some a => heapRemove h a

/-- Translation of `drop_float_array` (`src/lib.rs` line 237): the function
body is empty, the move into the parameter runs the `Drop` impl. -/
def drop_float_array : RawInternalArray → Heap → Heap :=
  dropInternalArray

/-- A heap of allocated C strings. -/
abbrev StrHeap := List (ℕ × List Char)

/-- Look up the C string at an address. -/
def strHeapLookup (h : StrHeap) (a : ℕ) : Option (List Char) :=
  (h.find? fun e => e.1 == a).map Prod.snd

/-- Deallocate the C string at an address. -/
def strHeapRemove (h : StrHeap) (a : ℕ) : StrHeap :=
  h.filter fun e => e.1 != a

/-- `CString::from_raw`: retake ownership of a transferred C string.  Its
contract requires a non-null pointer previously produced by `into_raw`;
outside that precondition the behaviour is undefined, modelled as `none`. -/
def cStringFromRaw (p : Option ℕ) (h : StrHeap) : Option (List Char × StrHeap) :=
  match p with
  | none => none
  | some a => (strHeapLookup h a).map fun cs => (cs, strHeapRemove h a)

/-- Translation of `drop_cstring` (`src/lib.rs` lines 245-247):
`drop(CString::from_raw(p))`, with no null-pointer guard. -/
def drop_cstring (p : Option ℕ) (h : StrHeap) : Option StrHeap :=
  (cStringFromRaw p h).map Prod.snd

/-! ## Specification-side helpers for the round-trip proofs -/

/-- Lift an exact coordinate pair into boundary representation. -/
def liftPair (c : ℚ × ℚ) : Coord :=
  (F64.val c.1, F64.val c.2)

/-- The coordinate ranges accepted by the external encoder. -/
def inRangeQ (c : ℚ × ℚ) : Prop :=
  -90 ≤ c.2 ∧ c.2 ≤ 90 ∧ -180 ≤ c.1 ∧ c.1 ≤ 180

/-- The zigzagged scaled deltas the encoder emits for a coordinate list. -/
def deltaVals (factor : ℚ) : (ℚ × ℚ) → List (ℚ × ℚ) → List ℕ
  | _, [] => []
  | prev, a :: rest =>
    zig (rustRound (a.2 * factor) - rustRound (prev.2 * factor)) ::
      zig (rustRound (a.1 * factor) - rustRound (prev.1 * factor)) ::
        deltaVals factor a rest

/-- A coordinate pair after the grid snap introduced by one encode/decode
round trip at a given scale factor. -/
def roundPair (factor : ℚ) (c : ℚ × ℚ) : Coord :=
  (F64.val ((rustRound (c.1 * factor) : ℤ) / factor),
    F64.val ((rustRound (c.2 * factor) : ℤ) / factor))

/-! ## Helper lemmas -/

theorem get_precision_five : get_precision 5 = some 5 := rfl

theorem get_precision_six : get_precision 6 = some 6 := rfl

theorem get_precision_eq_none {n : ℕ} (h5 : n ≠ 5) (h6 : n ≠ 6) :
    get_precision n = none := by
  match n, h5, h6 with
  | 0, _, _ => rfl
  | 1, _, _ => rfl
  | 2, _, _ => rfl
  | 3, _, _ => rfl
  | 4, _, _ => rfl
  | 5, h5, _ => exact absurd rfl h5
  | 6, _, h6 => exact absurd rfl h6
  | n + 7, _, _ => rfl

theorem unzig_zig (d : ℤ) : unzig (zig d) = d := by
  unfold zig unzig
  split_ifs <;> omega

theorem chunksEncAux_lt (f : ℕ) : ∀ n c, c ∈ chunksEncAux f n → c < 64 := by
  induction f with
  | zero =>
    intro n c hc
    simp only [chunksEncAux, List.mem_singleton] at hc
    omega
  | succ f ih =>
    intro n c hc
    unfold chunksEncAux at hc
    split_ifs at hc with h32
    · simp only [List.mem_singleton] at hc
      omega
    · rcases List.mem_cons.mp hc with rfl | h
      · omega
      · exact ih _ _ h

theorem chunksEncAux_ne_nil (f n : ℕ) : chunksEncAux f n ≠ [] := by
  cases f <;> unfold chunksEncAux
  · simp
  · split_ifs <;> simp

theorem parseVal_chunksEncAux (f : ℕ) : ∀ n rest, n < 32 ^ (f + 1) →
    parseVal (chunksEncAux f n ++ rest) = some (n, rest) := by
  induction f with
  | zero =>
    intro n rest h
    have hn : n % 32 = n := Nat.mod_eq_of_lt (by simpa using h)
    simp only [chunksEncAux, hn, List.cons_append, List.nil_append, parseVal]
    rw [if_pos (by simpa using h)]
    rfl
  | succ f ih =>
    intro n rest h
    unfold chunksEncAux
    by_cases h32 : n < 32
    · rw [if_pos h32]
      simp only [List.cons_append, List.nil_append, parseVal]
      rw [if_pos h32]
      rfl
    · rw [if_neg h32, List.cons_append]
      have hd : n / 32 < 32 ^ (f + 1) := by
        rw [Nat.div_lt_iff_lt_mul (by norm_num)]
        calc n < 32 ^ (f + 1 + 1) := h
        _ = 32 ^ (f + 1) * 32 := by rw [pow_succ]
      simp only [parseVal]
      rw [if_neg (by omega), ih _ _ hd]
      show some (n % 32 + 32 - 32 + 32 * (n / 32), rest) = some (n, rest)
      have he : n % 32 + 32 - 32 + 32 * (n / 32) = n := by
        have := Nat.mod_add_div n 32
        omega
      rw [he]

theorem parseVal_chunksEnc (n : ℕ) (rest : List ℕ) :
    parseVal (chunksEnc n ++ rest) = some (n, rest) :=
  parseVal_chunksEncAux n n rest
    (lt_of_lt_of_le (Nat.lt_pow_self (by norm_num) n)
      (Nat.pow_le_pow_right (by norm_num) (Nat.le_succ n)))

theorem parseValsAux_flatten : ∀ (vs : List ℕ) (f : ℕ),
    ((vs.map chunksEnc).flatten).length ≤ f →
    parseValsAux f ((vs.map chunksEnc).flatten) = some vs := by
  intro vs
  induction vs with
  | nil =>
    intro f h
    simp only [List.map_nil, List.flatten_nil]
    cases f <;> rfl
  | cons v vs ih =>
    intro f h
    obtain ⟨c, t, hct⟩ := List.exists_cons_of_ne_nil (chunksEncAux_ne_nil v v)
    have hlen : ((vs.map chunksEnc).flatten).length + 1 ≤ f := by
      simp only [List.map_cons, List.flatten_cons, List.length_append] at h
      have : 0 < (chunksEnc v).length :=
        List.length_pos.mpr (chunksEncAux_ne_nil v v)
      omega
    match f, hlen with
    | f + 1, hlen =>
      simp only [List.map_cons, List.flatten_cons]
      have hsplit : chunksEnc v ++ (vs.map chunksEnc).flatten =
          c :: (t ++ (vs.map chunksEnc).flatten) := by
        rw [chunksEnc, hct, List.cons_append]
      rw [hsplit]
      simp only [parseValsAux]
      rw [← hsplit, parseVal_chunksEnc]
      show (parseValsAux f ((vs.map chunksEnc).flatten)).map (v :: ·) = some (v :: vs)
      rw [ih f (by omega)]
      rfl

theorem toNat_charOfCode {c : ℕ} (h : c < 64) : (charOfCode c).toNat = c + 63 := by
  unfold charOfCode Char.ofNat
  rw [dif_pos (Or.inl (by omega : c + 63 < 55296))]
  rfl

theorem charVal_charOfCode {c : ℕ} (h : c < 64) : charVal (charOfCode c) = .ok c := by
  unfold charVal
  rw [toNat_charOfCode h, if_pos ⟨by omega, by omega⟩]
  congr 1

theorem mapM_charVal_map (cs : List ℕ) (h : ∀ c ∈ cs, c < 64) :
    (cs.map charOfCode).mapM charVal = Except.ok cs := by
  induction cs with
  | nil => rfl
  | cons c cs ih =>
    rw [List.map_cons, List.mapM_cons, charVal_charOfCode (h c (List.mem_cons_self c cs)),
      ih fun x hx => h x (List.mem_cons_of_mem c hx)]
    rfl

theorem mapM_charVal_flatten (vs : List ℕ) :
    ((vs.map fun v => (chunksEnc v).map charOfCode).flatten).mapM charVal
      = Except.ok ((vs.map chunksEnc).flatten) := by
  induction vs with
  | nil => rfl
  | cons v vs ih =>
    simp only [List.map_cons, List.flatten_cons]
    rw [List.mapM_append,
      mapM_charVal_map (chunksEnc v) fun c hc => chunksEncAux_lt v v c hc, ih]
    rfl

theorem rustRound_abs (q : ℚ) : |q - (rustRound q : ℚ)| ≤ 1 / 2 := by
  unfold rustRound
  split_ifs with h
  · have hr := abs_sub_round (-q)
    have e : q - ((-round (-q) : ℤ) : ℚ) = -(-q - ((round (-q) : ℤ) : ℚ)) := by
      push_cast
      ring
    rw [e, abs_neg]
    exact hr
  · exact abs_sub_round q

theorem rustRound_div_close {factor : ℚ} (hf : 0 < factor) (q : ℚ) :
    |q - ((rustRound (q * factor) : ℤ) : ℚ) / factor| ≤ 1 / (2 * factor) := by
  have h := rustRound_abs (q * factor)
  have e : q - ((rustRound (q * factor) : ℤ) : ℚ) / factor
      = (q * factor - ((rustRound (q * factor) : ℤ) : ℚ)) / factor := by
    field_simp
  rw [e, abs_div, abs_of_pos hf, ← div_div]
  gcongr

theorem coordCheck_lift {c : ℚ × ℚ} (h : inRangeQ c) :
    coordCheck (liftPair c) = .ok () := by
  obtain ⟨h1, h2, h3, h4⟩ := h
  have b1 : fLt (F64.val c.2) (F64.val (-90)) = false := by
    simp only [fLt, decide_eq_false_iff_not, not_lt]
    linarith
  have b2 : fLt (F64.val 90) (F64.val c.2) = false := by
    simp only [fLt, decide_eq_false_iff_not, not_lt]
    linarith
  have b3 : fLt (F64.val c.1) (F64.val (-180)) = false := by
    simp only [fLt, decide_eq_false_iff_not, not_lt]
    linarith
  have b4 : fLt (F64.val 180) (F64.val c.1) = false := by
    simp only [fLt, decide_eq_false_iff_not, not_lt]
    linarith
  simp only [coordCheck, liftPair, b1, b2, b3, b4, Bool.or_self, Bool.false_eq_true,
    if_false]

theorem encodeGo_lift (factor : ℚ) :
    ∀ (S : List (ℚ × ℚ)) (prev : ℚ × ℚ), (∀ c ∈ S, inRangeQ c) →
    encodeGo factor (liftPair prev) (S.map liftPair) =
      .ok (((deltaVals factor prev S).map fun v => (chunksEnc v).map charOfCode).flatten) := by
  intro S
  induction S with
  | nil => intro prev h; rfl
  | cons a S ih =>
    intro prev h
    simp only [List.map_cons, encodeGo]
    rw [coordCheck_lift (h a (List.mem_cons_self a S)),
      ih a fun x hx => h x (List.mem_cons_of_mem a hx)]
    rfl

theorem coordsGo_deltaVals (factor : ℚ) :
    ∀ (S : List (ℚ × ℚ)) (px py : ℚ),
    coordsGo factor (rustRound (py * factor)) (rustRound (px * factor))
        (deltaVals factor (px, py) S) = .ok (S.map (roundPair factor)) := by
  intro S
  induction S with
  | nil => intro px py; rfl
  | cons a S ih =>
    intro px py
    simp only [deltaVals, List.map_cons, coordsGo, unzig_zig]
    have e1 : rustRound (py * factor) + (rustRound (a.2 * factor) - rustRound (py * factor))
        = rustRound (a.2 * factor) := by ring
    have e2 : rustRound (px * factor) + (rustRound (a.1 * factor) - rustRound (px * factor))
        = rustRound (a.1 * factor) := by ring
    rw [e1, e2]
    have ih2 := ih a.1 a.2
    rw [show ((a.1, a.2) : ℚ × ℚ) = a from rfl] at ih2
    rw [ih2]
    rfl

theorem rustRound_zero_mul (factor : ℚ) : rustRound (0 * factor) = 0 := by
  rw [zero_mul]
  simp [rustRound]

theorem coordsGo_deltaVals_zero (factor : ℚ) (S : List (ℚ × ℚ)) :
    coordsGo factor 0 0 (deltaVals factor (0, 0) S) = .ok (S.map (roundPair factor)) := by
  rw [show (0 : ℤ) = rustRound ((0 : ℚ) * factor) from (rustRound_zero_mul factor).symm]
  exact coordsGo_deltaVals factor S 0 0

theorem decode_encoded (p : ℕ) (S : List (ℚ × ℚ)) :
    decode_polyline
        (String.mk (((deltaVals ((10 : ℚ) ^ p) (0, 0) S).map
          fun v => (chunksEnc v).map charOfCode).flatten)) p
      = .ok (S.map (roundPair ((10 : ℚ) ^ p))) := by
  unfold decode_polyline
  rw [show (String.mk (((deltaVals ((10 : ℚ) ^ p) (0, 0) S).map
        fun v => (chunksEnc v).map charOfCode).flatten)).data
      = ((deltaVals ((10 : ℚ) ^ p) (0, 0) S).map
        fun v => (chunksEnc v).map charOfCode).flatten from rfl]
  rw [mapM_charVal_flatten]
  show (match parseValsAux _ _ with
    | none => Except.error "Unable to parse polyline"
    | some vals => coordsGo ((10 : ℚ) ^ p) 0 0 vals) = _
  rw [parseValsAux_flatten _ _ le_rfl]
  exact coordsGo_deltaVals_zero ((10 : ℚ) ^ p) S

theorem facade_roundtrip (S : List (ℚ × ℚ)) (p : ℕ) (hp : p = 5 ∨ p = 6)
    (hok : ∀ c ∈ S, inRangeQ c) :
    arr_from_string (string_from_arr (S.map liftPair) p) p =
      internalArrayOfList (S.map (roundPair ((10 : ℚ) ^ p))) := by
  have hprec : (get_precision p).isSome = true := by
    rcases hp with rfl | rfl <;> rfl
  have henc : encodeGo ((10 : ℚ) ^ p) ((F64.val 0, F64.val 0) : Coord) (S.map liftPair)
      = .ok (((deltaVals ((10 : ℚ) ^ p) (0, 0) S).map
        fun v => (chunksEnc v).map charOfCode).flatten) :=
    encodeGo_lift ((10 : ℚ) ^ p) S (0, 0) hok
  have hstr : string_from_arr (S.map liftPair) p
      = String.mk (((deltaVals ((10 : ℚ) ^ p) (0, 0) S).map
        fun v => (chunksEnc v).map charOfCode).flatten) := by
    unfold string_from_arr string_from_arr_with
    rw [if_pos hprec]
    unfold encode_coordinates
    rw [henc]
    rfl
  rw [hstr]
  unfold arr_from_string arr_from_string_with
  rw [if_pos hprec, decode_encoded p S]

theorem string_from_arr_encoded (S : List (ℚ × ℚ)) (p : ℕ) (hp : p = 5 ∨ p = 6)
    (hok : ∀ c ∈ S, inRangeQ c) :
    string_from_arr (S.map liftPair) p
      = String.mk (((deltaVals ((10 : ℚ) ^ p) (0, 0) S).map
        fun v => (chunksEnc v).map charOfCode).flatten) := by
  have hprec : (get_precision p).isSome = true := by
    rcases hp with rfl | rfl <;> rfl
  have henc : encodeGo ((10 : ℚ) ^ p) ((F64.val 0, F64.val 0) : Coord) (S.map liftPair)
      = .ok (((deltaVals ((10 : ℚ) ^ p) (0, 0) S).map
        fun v => (chunksEnc v).map charOfCode).flatten) :=
    encodeGo_lift ((10 : ℚ) ^ p) S (0, 0) hok
  unfold string_from_arr string_from_arr_with
  rw [if_pos hprec]
  unfold encode_coordinates
  rw [henc]
  rfl

theorem cStringWF_append_nul (l : List Char) (h : ∀ c ∈ l, c.toNat ≠ 0) :
    cStringWF (l ++ [nulChar]) := by
  refine ⟨by simp, List.getLast?_concat l, ?_⟩
  rw [List.dropLast_concat]
  exact h

/-! ## Claim theorems -/

/-- C1: for every decode call that fails — the input bytes are not valid
Unicode text (`s = none`), the precision is outside the accepted set, or the
external decode algorithm rejects the polyline — the returned buffer contains
exactly one coordinate pair whose both components are NaN, with element
count 1.  Stated for every external decode function `dec`. -/
theorem decode_failure_returns_nan_sentinel
    (dec : String → ℕ → Except String (List Coord)) (s : Option String) (p : ℕ)
    (h : s = none ∨ get_precision p = none ∨
      ∃ str e, s = some str ∧ dec str p = .error e) :
    (decode_polyline_ffi_with dec s p).data = [(F64.nan, F64.nan)] ∧
    (decode_polyline_ffi_with dec s p).len = 1 := by
  rcases h with rfl | hnone | ⟨str, e, rfl, hd⟩
  · exact ⟨rfl, rfl⟩
  · cases s with
    | none => exact ⟨rfl, rfl⟩
    | some str =>
      unfold decode_polyline_ffi_with arr_from_string_with
      rw [hnone]
      exact ⟨rfl, rfl⟩
  · have e : decode_polyline_ffi_with dec (some str) p = arr_from_string_with dec str p := rfl
    rw [e]
    unfold arr_from_string_with
    rw [hd]
    split_ifs <;> exact ⟨rfl, rfl⟩

/-- Witness for C1 at the invalid-Unicode branch. -/
theorem decode_failure_returns_nan_sentinel_witness :
    (decode_polyline_ffi_with (fun _ _ => .ok []) none 5).data = [(F64.nan, F64.nan)] ∧
    (decode_polyline_ffi_with (fun _ _ => .ok []) none 5).len = 1 :=
  decode_failure_returns_nan_sentinel (fun _ _ => .ok []) none 5 (Or.inl rfl)

/-- C2: for every caller-supplied coordinate buffer and every precision value
outside the set of 5 and 6, the encode operation returns the literal text
"Bad precision parameter supplied"; the external encode algorithm is not
invoked, which the statement expresses by holding for every encode function
`enc`. -/
theorem encode_invalid_precision_literal
    (enc : List Coord → ℕ → Except String String) (coords : List Coord) (p : ℕ)
    (h5 : p ≠ 5) (h6 : p ≠ 6) :
    string_from_arr_with enc coords p = "Bad precision parameter supplied" := by
  unfold string_from_arr_with
  rw [get_precision_eq_none h5 h6]
  rfl

/-- Witness for C2 at precision 7. -/
theorem encode_invalid_precision_literal_witness :
    string_from_arr_with (fun _ _ => .ok "ignored") [] 7
      = "Bad precision parameter supplied" :=
  encode_invalid_precision_literal (fun _ _ => .ok "ignored") [] 7
    (by decide) (by decide)

/-- C3: the precision validator is a total function accepting an integer,
returning a positive result (`some`) exactly for the inputs 5 and 6 and a
negative result (`none`) for every other integer; it is a pure Lean function,
so it has no side effects and never fails. -/
theorem get_precision_some_iff (n : ℕ) :
    (get_precision n).isSome = true ↔ n = 5 ∨ n = 6 := by
  constructor
  · intro h
    by_contra hc
    rcases not_or.mp hc with ⟨h5, h6⟩
    rw [get_precision_eq_none h5 h6] at h
    simp at h
  · rintro (rfl | rfl) <;> rfl

/-- C4: releasing a native-owned coordinate array whose address field is null
is a safe no-op — the heap, and hence every other buffer, is unchanged and
nothing is deallocated. -/
theorem drop_null_array_noop (arr : RawInternalArray) (h : Heap)
    (hnull : arr.data = none) :
    drop_float_array arr h = h := by
  unfold drop_float_array dropInternalArray
  rw [hnull]

/-- Witness for C4 on a heap holding one other live buffer. -/
theorem drop_null_array_noop_witness :
    drop_float_array ⟨none, 2⟩ [(1, nanSentinel)] = [(1, nanSentinel)] :=
  drop_null_array_noop ⟨none, 2⟩ [(1, nanSentinel)] rfl

/-- C7: when the precision is valid but the external encode algorithm rejects
the input coordinates, the encode operation returns the algorithm's own error
message text unmodified. -/
theorem encode_error_passthrough
    (enc : List Coord → ℕ → Except String String) (coords : List Coord) (p : ℕ)
    (e : String) (hp : (get_precision p).isSome = true)
    (he : enc coords p = .error e) :
    string_from_arr_with enc coords p = e := by
  unfold string_from_arr_with
  rw [if_pos hp, he]

/-- Witness for C7: the modelled collaborator rejects an out-of-range
latitude and its "Latitude error:" message is passed through verbatim. -/
theorem encode_error_passthrough_witness :
    string_from_arr_with encode_coordinates [(F64.val 0, F64.val 91)] 5
      = "Latitude error: value out of range" :=
  encode_error_passthrough encode_coordinates [(F64.val 0, F64.val 91)] 5
    "Latitude error: value out of range" rfl
    (by norm_num [encode_coordinates, encodeGo, coordCheck, fLt]
        rfl)

/-- C9: exporting any in-process coordinate sequence, including the empty
one, produces a descriptor whose element count equals the sequence length and
whose buffer, read back from the heap, holds exactly the sequence. -/
theorem export_array_contents (v : List Coord) (h : Heap) :
    (internalArrayFromVec v h).1.len = v.length ∧
    (internalArrayFromVec v h).1.data = some (freshAddr h) ∧
    heapLookup (internalArrayFromVec v h).2 (freshAddr h) = some v := by
  refine ⟨rfl, rfl, ?_⟩
  unfold internalArrayFromVec heapLookup
  rw [List.find?_cons_of_pos _ (by simp)]
  rfl

/-- C10: unlike the array release, `drop_cstring` has no null-pointer guard —
its deallocation branch is reached only for a non-null pointer to a live
transferred string, and calling it with a null pointer is undefined
behaviour (`none`), not a safe no-op. -/
theorem drop_cstring_no_null_guard (h : StrHeap) (a : ℕ) (cs : List Char)
    (hs : strHeapLookup h a = some cs) :
    drop_cstring none h = none ∧
    drop_cstring (some a) h = some (strHeapRemove h a) := by
  refine ⟨rfl, ?_⟩
  have e : drop_cstring (some a) h
      = ((strHeapLookup h a).map fun cs => (cs, strHeapRemove h a)).map Prod.snd := rfl
  rw [e, hs]
  rfl

/-- Witness for C10 on a one-string heap. -/
theorem drop_cstring_no_null_guard_witness :
    drop_cstring none [(1, [nulChar])] = none ∧
    drop_cstring (some 1) [(1, [nulChar])] = some (strHeapRemove [(1, [nulChar])] 1) :=
  drop_cstring_no_null_guard [(1, [nulChar])] 1 [nulChar] rfl

/-- C5: encoding the coordinate sequence [(2, 1), (4, 3)] at precision 5
yields exactly the text "_ibE_seK_seK_seK", and decoding that text at
precision 5 yields a buffer of exactly the two pairs (2, 1) and (4, 3) with
count 2. -/
theorem concrete_scenarios :
    string_from_arr [(F64.val 2, F64.val 1), (F64.val 4, F64.val 3)] 5
      = "_ibE_seK_seK_seK" ∧
    arr_from_string "_ibE_seK_seK_seK" 5
      = internalArrayOfList [(F64.val 2, F64.val 1), (F64.val 4, F64.val 3)] ∧
    (arr_from_string "_ibE_seK_seK_seK" 5).len = 2 := by
  have hok : ∀ c ∈ [((2 : ℚ), (1 : ℚ)), ((4 : ℚ), (3 : ℚ))], inRangeQ c := by
    intro c hc
    simp only [List.mem_cons, List.not_mem_nil, or_false] at hc
    rcases hc with rfl | rfl <;> norm_num [inRangeQ]
  have hdv : deltaVals ((10 : ℚ) ^ 5) (0, 0) [((2 : ℚ), (1 : ℚ)), ((4 : ℚ), (3 : ℚ))]
      = [200000, 400000, 400000, 400000] := by
    norm_num [deltaVals, rustRound, zig]
    omega
  have hs : string_from_arr ([((2 : ℚ), (1 : ℚ)), ((4 : ℚ), (3 : ℚ))].map liftPair) 5
      = "_ibE_seK_seK_seK" := by
    rw [string_from_arr_encoded [((2 : ℚ), (1 : ℚ)), ((4 : ℚ), (3 : ℚ))] 5
      (Or.inl rfl) hok, hdv]
    rfl
  have hrt := facade_roundtrip [((2 : ℚ), (1 : ℚ)), ((4 : ℚ), (3 : ℚ))] 5 (Or.inl rfl) hok
  rw [hs] at hrt
  have hrp : [((2 : ℚ), (1 : ℚ)), ((4 : ℚ), (3 : ℚ))].map (roundPair ((10 : ℚ) ^ 5))
      = [(F64.val 2, F64.val 1), (F64.val 4, F64.val 3)] := by
    norm_num [roundPair, rustRound]
  rw [hrp] at hrt
  have hlift : [((2 : ℚ), (1 : ℚ)), ((4 : ℚ), (3 : ℚ))].map liftPair
      = [(F64.val 2, F64.val 1), (F64.val 4, F64.val 3)] := rfl
  rw [hlift] at hs
  exact ⟨hs, hrt, by rw [hrt]; rfl⟩

/-- C6: for every valid coordinate sequence and precision 5 or 6, decoding
the result of encoding reproduces the sequence up to the grid snap of the
precision: the decoded buffer holds exactly the rounded coordinates, and
each rounded component is within half a grid cell of the original. -/
theorem round_trip_law (S : List (ℚ × ℚ)) (p : ℕ) (hp : p = 5 ∨ p = 6)
    (hok : ∀ c ∈ S, inRangeQ c) :
    arr_from_string (string_from_arr (S.map liftPair) p) p
      = internalArrayOfList (S.map (roundPair ((10 : ℚ) ^ p))) ∧
    ∀ c ∈ S,
      |c.1 - ((rustRound (c.1 * (10 : ℚ) ^ p) : ℤ) : ℚ) / (10 : ℚ) ^ p|
          ≤ 1 / (2 * (10 : ℚ) ^ p) ∧
      |c.2 - ((rustRound (c.2 * (10 : ℚ) ^ p) : ℤ) : ℚ) / (10 : ℚ) ^ p|
          ≤ 1 / (2 * (10 : ℚ) ^ p) := by
  refine ⟨facade_roundtrip S p hp hok, fun c _ => ⟨?_, ?_⟩⟩ <;>
    exact rustRound_div_close (by positivity) _

/-- Witness for C6 at the concrete sequence [(2, 1), (4, 3)], precision 5. -/
theorem round_trip_law_witness :
    (arr_from_string
        (string_from_arr ([((2 : ℚ), (1 : ℚ)), ((4 : ℚ), (3 : ℚ))].map liftPair) 5) 5
      = internalArrayOfList
          ([((2 : ℚ), (1 : ℚ)), ((4 : ℚ), (3 : ℚ))].map (roundPair ((10 : ℚ) ^ 5)))) ∧
    ∀ c ∈ [((2 : ℚ), (1 : ℚ)), ((4 : ℚ), (3 : ℚ))],
      |c.1 - ((rustRound (c.1 * (10 : ℚ) ^ 5) : ℤ) : ℚ) / (10 : ℚ) ^ 5|
          ≤ 1 / (2 * (10 : ℚ) ^ 5) ∧
      |c.2 - ((rustRound (c.2 * (10 : ℚ) ^ 5) : ℤ) : ℚ) / (10 : ℚ) ^ 5|
          ≤ 1 / (2 * (10 : ℚ) ^ 5) :=
  round_trip_law [((2 : ℚ), (1 : ℚ)), ((4 : ℚ), (3 : ℚ))] 5 (Or.inl rfl)
    (by intro c hc
        simp only [List.mem_cons, List.not_mem_nil, or_false] at hc
        rcases hc with rfl | rfl <;> norm_num [inRangeQ])

/-- C8: if the text computed by the encode path contains an embedded null
byte, the marshalling step does not crash but returns exactly the fixed
fallback message, null-terminated; and in all cases the string returned by
encode exists (is non-null), is null-terminated, and has no embedded null
bytes. -/
theorem encode_cstring_wellformed (s : String) (coords : List Coord) (p : ℕ) :
    (hasNul s = true → cStringNewOrFallback s = fallbackMessage.data ++ [nulChar]) ∧
    cStringWF (cStringNewOrFallback s) ∧
    cStringWF (encode_coordinates_ffi coords p) := by
  have hfb : hasNul fallbackMessage = false := by decide
  have hkey : ∀ t : String, cStringWF (cStringNewOrFallback t) := by
    intro t
    unfold cStringNewOrFallback cStringNew
    by_cases ht : hasNul t = true
    · rw [if_pos ht, if_neg (by simp [hfb])]
      show cStringWF (fallbackMessage.data ++ [nulChar])
      exact cStringWF_append_nul _ (by decide)
    · have ht' : hasNul t = false := by simpa using ht
      rw [if_neg ht]
      show cStringWF (t.data ++ [nulChar])
      apply cStringWF_append_nul
      intro c hc
      have := List.any_eq_false.mp ht' c hc
      simpa using this
  refine ⟨?_, hkey s, hkey (string_from_arr coords p)⟩
  intro hs
  unfold cStringNewOrFallback cStringNew
  rw [if_pos hs, if_neg (by simp [hfb])]
  rfl

/-- Witness for C8 on a text with an embedded null byte. -/
theorem encode_cstring_wellformed_witness :
    (hasNul (String.mk [Char.ofNat 65, nulChar]) = true →
      cStringNewOrFallback (String.mk [Char.ofNat 65, nulChar])
        = fallbackMessage.data ++ [nulChar]) ∧
    cStringWF (cStringNewOrFallback (String.mk [Char.ofNat 65, nulChar])) ∧
    cStringWF (encode_coordinates_ffi [] 5) :=
  encode_cstring_wellformed (String.mk [Char.ofNat 65, nulChar]) [] 5

end PolylineFFI
